import Mathlib

/-!
# Verification of the g-flite job pipeline

A shallow embedding, in Lean 4, of the core logic of the `g-flite`
command-line tool (text-to-speech distributed over the Golem network):

* the input partitioner (`split_textfile` in `src/main.rs`, identical to
  `App::split_input` in `src/app.rs`);
* the Golem task builder (`TaskBuilder` in `src/task.rs`);
* the submit/poll/cancel lifecycle loop (`App::send_to_golem` in
  `src/app.rs`);
* the WAV aggregator (`combine_wave` in `src/main.rs`, identical to
  `App::combine_output` in `src/app.rs`);
* timeout parsing (`Timeout::from_str` in `src/timeout.rs`).

File-system access, the RPC transport and the progress-bar terminal are
abstracted: file contents are passed as values, back-end interaction is a
list of per-iteration observations, and effects (directories created,
files written, RPC calls issued, progress increments emitted) are
returned as explicit traces.  `f64` progress values are modelled as `ℚ`;
machine integers are modelled as `Nat` (the relevant quantities - word
counts, chunk counts - are far below any overflow boundary).

Library functions used by the code are embedded from their documented
behaviour: Rust's `str::split_whitespace` (Unicode white-space
separated tokens), `BTreeMap` (association list kept sorted by key, in
byte-lexicographic string order - for the ASCII keys used here this is
codepoint order), the `hound` WAV reader/writer (16-bit integer sample
streams), and chrono's `NaiveTime::parse_from_str` with format
`"%H:%M:%S"`.
-/

namespace GFlite

/-- Decidable equality for `Except`, so that concrete runs of the
embedded fallible functions can be checked by `decide`. -/
instance {ε α : Type} [DecidableEq ε] [DecidableEq α] :
    DecidableEq (Except ε α)
  | .error a, .error b =>
    if h : a = b then isTrue (by rw [h])
    else isFalse (by intro he; cases he; exact h rfl)
  | .error _, .ok _ => isFalse (fun h => Except.noConfusion h)
  | .ok _, .error _ => isFalse (fun h => Except.noConfusion h)
  | .ok a, .ok b =>
    if h : a = b then isTrue (by rw [h])
    else isFalse (by intro he; cases he; exact h rfl)

/-! ## Rust `str::split_whitespace`

Rust splits on `char::is_whitespace`, the Unicode `White_Space`
property, and yields the maximal non-empty runs of non-white-space
characters. -/

/-- The Unicode `White_Space` code points, as tested by Rust's
`char::is_whitespace`. -/
def rustIsWhitespace (c : Char) : Bool :=
  c.toNat = 0x20 ∨ (0x09 ≤ c.toNat ∧ c.toNat ≤ 0x0D) ∨ c.toNat = 0x85 ∨
  c.toNat = 0xA0 ∨ c.toNat = 0x1680 ∨
  (0x2000 ≤ c.toNat ∧ c.toNat ≤ 0x200A) ∨ c.toNat = 0x2028 ∨
  c.toNat = 0x2029 ∨ c.toNat = 0x202F ∨ c.toNat = 0x205F ∨
  c.toNat = 0x3000

/-- Worker for `split_whitespace`: walk the characters keeping the
(reversed) current token in `acc`; a white-space character ends the
current token, the end of input flushes a pending token. -/
def splitWsGo : List Char → List Char → List (List Char)
  | [], acc => if acc.isEmpty then [] else [acc.reverse]
  | c :: cs, acc =>
    if rustIsWhitespace c then
      if acc.isEmpty then splitWsGo cs [] else acc.reverse :: splitWsGo cs []
    else splitWsGo cs (c :: acc)

/-- Rust's `contents.split_whitespace()`, collected into a list. -/
def split_whitespace (s : String) : List String :=
  (splitWsGo s.data []).map fun l => ⟨l⟩

/-- Rust's `contents.split_whitespace().count()` (`src/main.rs` line 100). -/
def wordCount (s : String) : Nat := (split_whitespace s).length

/-! ## The partitioner (`split_textfile`, `src/main.rs` lines 94-139)

The function reads the file into `contents` (file access abstracted:
`contents` is the input here), computes
`num_words = (word_count as f64 / num_subtasks as f64).ceil() as usize`,
accumulates words into `acc`, flushing a chunk each time `acc` reaches
`num_words` words, flushes a final partial chunk, and joins every chunk
with single ASCII spaces (`chunk.join(" ")`). -/

/-- Rust's `(a as f64 / b as f64).ceil() as usize` for `1 ≤ b`: exact ceiling
division.  (The `f64` division is exact for all word counts occurring in
practice, far below `2^53`.) -/
def f64CeilDiv (a b : Nat) : Nat := (a + b - 1) / b

/-- The accumulation loop of `split_textfile` (lines 117-130): push each
word onto `acc`; once `acc` holds `numWords` words flush it as a chunk;
flush any non-empty remainder at the end. -/
def chunkLoop (numWords : Nat) : List String → List String → List (List String)
  | acc, [] => if acc.isEmpty then [] else [acc]
  | acc, w :: ws =>
    let acc2 := acc ++ [w]
    if acc2.length = numWords then acc2 :: chunkLoop numWords [] ws
    else chunkLoop numWords acc2 ws

/-- The partitioner `split_textfile` (`src/main.rs` lines 94-139) with the file contents
passed directly.  The body after the read never fails, so the result is
always `ok`. -/
def split_textfile (contents : String) (num_subtasks : Nat) :
    Except String (List String) :=
  let words := split_whitespace contents
  let num_words := f64CeilDiv words.length num_subtasks
  .ok ((chunkLoop num_words [] words).map (String.intercalate " "))

/-- The embedding reproduces the design document's own partitioner
scenarios (its section 8), including the no-validation outcome of
splitting one word into two subtasks. -/
theorem split_textfile_scenarios :
    split_textfile "a b c d e f" 2 = .ok ["a b c", "d e f"] ∧
    split_textfile "a b c d e" 2 = .ok ["a b c", "d e"] ∧
    split_textfile "a" 2 = .ok ["a"] := by
  decide

/-! ### Properties of the chunking loop -/

/-- Flattening the produced chunks recovers the pending accumulator
followed by the remaining words: no word is dropped, duplicated,
reordered or split. -/
theorem chunkLoop_flatten (k : Nat) :
    ∀ ws acc : List String, (chunkLoop k acc ws).flatten = acc ++ ws := by
  intro ws
  induction ws with
  | nil =>
    intro acc
    cases acc with
    | nil => simp [chunkLoop]
    | cons a t => simp [chunkLoop]
  | cons w ws ih =>
    intro acc
    by_cases h : (acc ++ [w]).length = k
    · simp only [chunkLoop, h, if_pos]
      simp [ih]
    · simp only [chunkLoop, h, if_neg, not_false_iff]
      simp [ih]

/-- The ceiling `⌈a / b⌉` is `1` whenever `1 ≤ a ≤ b`. -/
theorem f64CeilDiv_eq_one {a b : Nat} (h1 : 1 ≤ a) (h2 : a ≤ b) :
    f64CeilDiv a b = 1 := by
  unfold f64CeilDiv
  exact Nat.div_eq_of_lt_le (by omega) (by omega)

/-- Exact chunk count: starting from a partially filled accumulator the
loop produces `⌈(pending + remaining) / k⌉` chunks. -/
theorem chunkLoop_length (k : Nat) (hk : 0 < k) :
    ∀ ws acc : List String, acc.length < k →
      (chunkLoop k acc ws).length = f64CeilDiv (acc.length + ws.length) k := by
  intro ws
  induction ws with
  | nil =>
    intro acc hacc
    cases acc with
    | nil =>
      show ([] : List (List String)).length = f64CeilDiv (0 + 0) k
      unfold f64CeilDiv
      exact (Nat.div_eq_of_lt (by omega)).symm
    | cons a t =>
      show [a :: t].length = f64CeilDiv ((a :: t).length + 0) k
      rw [Nat.add_zero]
      exact (f64CeilDiv_eq_one (by simp) (le_of_lt hacc)).symm
  | cons w ws ih =>
    intro acc hacc
    by_cases h : (acc ++ [w]).length = k
    · simp only [chunkLoop, h, if_pos, List.length_cons]
      rw [ih [] (by simpa using hk)]
      simp only [List.length_nil, Nat.zero_add, f64CeilDiv]
      have hlen : acc.length + (ws.length + 1) + k - 1 =
          (ws.length + k - 1) + k := by
        simp only [List.length_append, List.length_cons, List.length_nil] at h
        omega
      rw [hlen, Nat.add_div_right _ hk]
    · simp only [chunkLoop, h, if_neg, not_false_iff]
      have hlt : (acc ++ [w]).length < k := by
        simp only [List.length_append, List.length_cons, List.length_nil] at h ⊢
        omega
      rw [ih _ hlt]
      simp only [List.length_append, List.length_cons, List.length_nil]
      congr 1
      omega

/-- With `k = 1` every word is flushed as its own chunk. -/
theorem chunkLoop_one : ∀ ws : List String,
    chunkLoop 1 [] ws = ws.map fun w => [w] := by
  intro ws
  induction ws with
  | nil => rfl
  | cons w ws ih => simp [chunkLoop, ih]

/-- The bound `⌈a / b⌉ ≤ c` holds exactly when `a ≤ c * b` (for `b ≥ 1`). -/
theorem f64CeilDiv_le_iff {a b c : Nat} (hb : 0 < b) :
    f64CeilDiv a b ≤ c ↔ a ≤ c * b := by
  unfold f64CeilDiv
  rw [← Nat.lt_succ_iff, Nat.div_lt_iff_lt_mul hb, Nat.succ_mul]
  have := Nat.le_refl (c * b)
  generalize c * b = d
  omega

/-- For `1 ≤ n ≤ wordCount`, the chunk size chosen by `split_textfile`
is positive. -/
theorem f64CeilDiv_pos {a b : Nat} (ha : 0 < a) (hb : 0 < b) :
    0 < f64CeilDiv a b := by
  unfold f64CeilDiv
  rw [Nat.lt_iff_add_one_le, Nat.le_div_iff_mul_le hb]
  omega

/-! ### Claims C1 and C2 -/

/-- **C1.** For every input text and every `n` with
`1 ≤ n ≤ wordCount text`, the partitioner succeeds and returns at most
`n` chunks; each chunk's text is its accumulated word list joined by a
single ASCII space with no trailing separator
(`String.intercalate " "`), and the chunks' word lists concatenate, in
order, to exactly the whitespace-token sequence of the original text. -/
theorem C1_partitioner_correct (text : String) (n : Nat)
    (h1 : 1 ≤ n) (h2 : n ≤ wordCount text) :
    ∃ wchunks : List (List String),
      split_textfile text n = .ok (wchunks.map (String.intercalate " ")) ∧
      wchunks.flatten = split_whitespace text ∧
      wchunks.length ≤ n := by
  refine ⟨chunkLoop (f64CeilDiv (wordCount text) n) [] (split_whitespace text),
    rfl, chunkLoop_flatten _ _ _, ?_⟩
  have hk : 0 < f64CeilDiv (wordCount text) n :=
    f64CeilDiv_pos (lt_of_lt_of_le h1 h2) h1
  rw [chunkLoop_length _ hk (split_whitespace text) [] (by simpa using hk)]
  simp only [List.length_nil, Nat.zero_add]
  rw [f64CeilDiv_le_iff hk]
  have := (f64CeilDiv_le_iff (a := wordCount text) h1).mp
    (Nat.le_refl (f64CeilDiv (wordCount text) n))
  calc (split_whitespace text).length = wordCount text := rfl
    _ ≤ f64CeilDiv (wordCount text) n * n := this
    _ = n * f64CeilDiv (wordCount text) n := Nat.mul_comm _ _

/-- **C1 witness.** The instance from the spec's own scenario list:
`split_textfile "a b c d e f" 2`. -/
theorem C1_witness :
    1 ≤ 2 ∧ 2 ≤ wordCount "a b c d e f" ∧
    (∃ wchunks : List (List String),
      split_textfile "a b c d e f" 2 = .ok (wchunks.map (String.intercalate " ")) ∧
      wchunks.flatten = split_whitespace "a b c d e f" ∧
      wchunks.length ≤ 2) :=
  ⟨by decide, by decide,
    C1_partitioner_correct "a b c d e f" 2 (by decide) (by decide)⟩

/-- **C2 counterexample.** The claim says `partition("a", 2)` must fail
with a `ValidationError`; in the code `split_textfile` performs no word
count validation at all and returns `Ok(["a"])`. -/
theorem C2_counterexample : split_textfile "a" 2 = .ok ["a"] := by decide

/-- **C2 (amended).** When `n` exceeds the word count (and the text is
non-empty), the partitioner does not fail: the chunk size becomes `1`
and it returns one single-word chunk per word, i.e. exactly
`wordCount text` chunks (fewer than the `n` requested), with no
`ValidationError` anywhere. -/
theorem C2_no_validation_error (text : String) (n : Nat)
    (h1 : 1 ≤ wordCount text) (h2 : wordCount text < n) :
    split_textfile text n = .ok (split_whitespace text) := by
  have hone : f64CeilDiv (split_whitespace text).length n = 1 :=
    f64CeilDiv_eq_one h1 (le_of_lt h2)
  have hrfl : split_textfile text n =
      .ok ((chunkLoop (f64CeilDiv (split_whitespace text).length n) []
        (split_whitespace text)).map (String.intercalate " ")) := rfl
  rw [hrfl, hone, chunkLoop_one, List.map_map]
  have : ∀ w : String, (String.intercalate " " ∘ fun w => [w]) w = id w := by
    intro w
    rfl
  rw [List.map_congr_left fun w _ => this w, List.map_id]

/-- **C2 witness** (for the amended statement): the concrete premises
hold at `text = "a"`, `n = 2`. -/
theorem C2_witness :
    1 ≤ wordCount "a" ∧ wordCount "a" < 2 ∧
    split_textfile "a" 2 = .ok (split_whitespace "a") :=
  ⟨by decide, by decide, C2_no_validation_error "a" 2 (by decide) (by decide)⟩

/-! ## Rust string ordering

`BTreeMap<String, _>` iterates its keys in ascending Rust `Ord` order,
which for strings is byte-wise lexicographic order on the UTF-8
encoding.  UTF-8 byte order coincides with code-point order, so it is
modelled as lexicographic order on the character (code-point)
sequence. -/

/-- Lexicographic order on character lists (Rust's `Ord` for `str`). -/
def charListLt : List Char → List Char → Bool
  | _, [] => false
  | [], _ :: _ => true
  | a :: as, b :: bs =>
    if a < b then true else if b < a then false else charListLt as bs

/-- Rust's `a < b` on strings. -/
def strLt (a b : String) : Bool := charListLt a.data b.data

theorem charListLt_irrefl : ∀ l : List Char, charListLt l l = false := by
  intro l
  induction l with
  | nil => rfl
  | cons a as ih => simp [charListLt, ih]

theorem charListLt_trans : ∀ {a b c : List Char},
    charListLt a b = true → charListLt b c = true → charListLt a c = true := by
  intro a
  induction a with
  | nil =>
    intro b c hab hbc
    cases c with
    | nil =>
      cases b with
      | nil => exact hab
      | cons y ys => simp [charListLt] at hbc
    | cons z zs => simp [charListLt]
  | cons x xs ih =>
    intro b c hab hbc
    cases b with
    | nil => simp [charListLt] at hab
    | cons y ys =>
      cases c with
      | nil => simp [charListLt] at hbc
      | cons z zs =>
        simp only [charListLt] at hab hbc ⊢
        by_cases hxy : x < y
        · by_cases hyz : y < z
          · simp [lt_trans hxy hyz]
          · by_cases hzy : z < y
            · simp [hyz, hzy] at hbc
            · have h : y = z := le_antisymm (not_lt.mp hzy) (not_lt.mp hyz)
              subst h
              simp [hxy]
        · by_cases hyx : y < x
          · simp [hxy, hyx] at hab
          · have h : x = y := le_antisymm (not_lt.mp hyx) (not_lt.mp hxy)
            subst h
            simp only [lt_self_iff_false, if_false] at hab
            by_cases hxz : x < z
            · simp [hxz]
            · by_cases hzx : z < x
              · simp [hxz, hzx] at hbc
              · have h2 : x = z := le_antisymm (not_lt.mp hzx) (not_lt.mp hxz)
                subst h2
                simp only [lt_self_iff_false, if_false] at hbc ⊢
                exact ih hab hbc

theorem charListLt_conn : ∀ {a b : List Char},
    charListLt a b = false → charListLt b a = false → a = b := by
  intro a
  induction a with
  | nil =>
    intro b hab _
    cases b with
    | nil => rfl
    | cons y ys => simp [charListLt] at hab
  | cons x xs ih =>
    intro b hab hba
    cases b with
    | nil => simp [charListLt] at hba
    | cons y ys =>
      simp only [charListLt] at hab hba
      rcases lt_trichotomy x y with hxy | hxy | hxy
      · simp [hxy] at hab
      · subst hxy
        simp only [lt_irrefl, if_neg, not_lt_of_gt] at hab hba
        simp at hab hba
        rw [ih hab hba]
      · simp [hxy] at hba

theorem strLt_irrefl (a : String) : strLt a a = false := charListLt_irrefl _

theorem strLt_trans {a b c : String} (h1 : strLt a b = true)
    (h2 : strLt b c = true) : strLt a c = true := charListLt_trans h1 h2

theorem strLt_conn {a b : String} (h1 : strLt a b = false)
    (h2 : strLt b a = false) : a = b := by
  cases a with
  | mk da =>
    cases b with
    | mk db => exact congrArg String.mk (charListLt_conn h1 h2)

theorem strLt_asymm {a b : String} (h : strLt a b = true) :
    strLt b a = false := by
  cases hba : strLt b a with
  | false => rfl
  | true =>
    have := strLt_trans h hba
    rw [strLt_irrefl] at this
    cases this

/-! ## The task builder (`src/task.rs`)

`TaskBuilder` collects one named subtask per chunk into a
`BTreeMap<String, String>` (name → chunk text) and `build` lays out the
workspace and produces the task descriptor.  File-system side effects
are returned as explicit traces (`dirsCreated`, `filesWritten`, each in
creation order); the embedded `flite.js`/`flite.wasm` payload bytes are
opaque markers.  Paths are lists of components rooted at the
workspace's parent (`workspace.join("in")` is `ws ++ ["in"]`). -/

/-- One `BTreeMap::insert`: keep the association list sorted by key in
ascending `strLt` order, replacing the value of an existing key. -/
def btreeInsert (k v : String) : List (String × String) → List (String × String)
  | [] => [(k, v)]
  | (k2, v2) :: rest =>
    if strLt k k2 then (k, v) :: (k2, v2) :: rest
    else if k = k2 then (k, v) :: rest
    else (k2, v2) :: btreeInsert k v rest

/-- The key-level shadow of `btreeInsert`. -/
def keyInsert (k : String) : List String → List String
  | [] => [k]
  | k2 :: rest =>
    if strLt k k2 then k :: k2 :: rest
    else if k = k2 then k :: rest
    else k2 :: keyInsert k rest

theorem btreeInsert_map_fst (k v : String) :
    ∀ l : List (String × String),
      (btreeInsert k v l).map Prod.fst = keyInsert k (l.map Prod.fst) := by
  intro l
  induction l with
  | nil => rfl
  | cons p rest ih =>
    obtain ⟨k2, v2⟩ := p
    by_cases h1 : strLt k k2 = true
    · simp [btreeInsert, keyInsert, h1]
    · by_cases h2 : k = k2
      · simp [btreeInsert, keyInsert, h1, h2, strLt_irrefl]
      · simp [btreeInsert, keyInsert, h1, h2, ih]

/-- Rust's `format!("subtask{}", i)`. -/
def subtaskName (i : Nat) : String := "subtask" ++ Nat.repr i

/-- The embedded `TaskBuilder` (`src/task.rs` lines 11-21): `bid` is the
`f64` bid modelled as `ℚ`, timeouts are already rendered to strings. -/
structure TaskBuilder where
  bid : ℚ
  task_timeout : String
  subtask_timeout : String
  js_name : String
  wasm_name : String
  input_dir_path : List String
  output_dir_path : List String
  subtask_count : Nat
  subtasks : List (String × String)
deriving DecidableEq

/-- Constructor `TaskBuilder::new` (`src/task.rs` lines 24-36): the input directory
is `workspace.join("in")` and the output directory `workspace.join("out")`. -/
def TaskBuilder.new (workspace : List String) (bid : ℚ)
    (task_timeout subtask_timeout : String) : TaskBuilder where
  bid := bid
  task_timeout := task_timeout
  subtask_timeout := subtask_timeout
  js_name := "flite.js"
  wasm_name := "flite.wasm"
  input_dir_path := workspace ++ ["in"]
  output_dir_path := workspace ++ ["out"]
  subtask_count := 0
  subtasks := []

/-- Method `TaskBuilder::add_subtask` (`src/task.rs` lines 38-42): insert the
chunk under the key `subtask<count>` and bump the counter. -/
def TaskBuilder.add_subtask (b : TaskBuilder) (data : String) : TaskBuilder :=
  { b with
    subtasks := btreeInsert (subtaskName b.subtask_count) data b.subtasks
    subtask_count := b.subtask_count + 1 }

/-- Feeding every chunk to the builder, as the loop in
`run_on_golem`/`send_to_golem` does. -/
def addChunks (b : TaskBuilder) (cs : List String) : TaskBuilder :=
  cs.foldl TaskBuilder.add_subtask b

/-- Contents written by `build`: the embedded `flite.js` / `flite.wasm`
payload bytes (opaque here) or a chunk's text. -/
inductive FileData where
  | jsPayload : FileData
  | wasmPayload : FileData
  | textData : String → FileData
deriving DecidableEq

/-- One entry of the descriptor's `"subtasks"` JSON object
(`src/task.rs` lines 118-124): `exec_args = [input_name, output_name]`
and `output_file_paths = [output_name]`. -/
structure SubtaskEntry where
  exec_args : List String
  output_file_paths : List String
deriving DecidableEq

/-- The built task (`src/task.rs` lines 151-154).  Of the JSON
descriptor we keep the `"subtasks"` object (whose entries appear in the
order `build` inserts them) together with the static fields that carry
the builder's configuration; `expected_output_paths` is the `VecDeque`
as a list, front first. -/
structure Task where
  bid : ℚ
  task_timeout : String
  subtask_timeout : String
  subtasks_map : List (String × SubtaskEntry)
  expected_output_paths : List (List String)
deriving DecidableEq

/-- File-system side effects of `build`, as traces in creation order. -/
structure BuildFx where
  dirsCreated : List (List String)
  filesWritten : List (List String × FileData)
deriving DecidableEq

/-- The per-subtask loop of `build` (`src/task.rs` lines 83-125): for
each `(name, data)` pair, in map order, create the input and output
subtask directories, write the chunk text as `in.txt`, queue the
expected output `in.wav`, and record the subtask's descriptor entry. -/
def buildLoop (in_dir out_dir : List String) :
    List (String × String) →
      List (List String) × List (List String × FileData) ×
        List (String × SubtaskEntry) × List (List String)
  | [] => ([], [], [], [])
  | (nm, data) :: rest =>
    let r := buildLoop in_dir out_dir rest
    ((in_dir ++ [nm]) :: (out_dir ++ [nm]) :: r.1,
     (in_dir ++ [nm, "in.txt"], .textData data) :: r.2.1,
     (nm, ⟨["in.txt", "in.wav"], ["in.wav"]⟩) :: r.2.2.1,
     (out_dir ++ [nm, "in.wav"]) :: r.2.2.2)

/-- Method `TaskBuilder::build` (`src/task.rs` lines 44-148).  Creates the
input directory, writes the `flite.js` and `flite.wasm` payloads into
it, creates the output directory, then runs the per-subtask loop.  With
the file system abstracted no operation fails. -/
def TaskBuilder.build (b : TaskBuilder) : Task × BuildFx :=
  let r := buildLoop b.input_dir_path b.output_dir_path b.subtasks
  (⟨b.bid, b.task_timeout, b.subtask_timeout, r.2.2.1, r.2.2.2⟩,
   ⟨b.input_dir_path :: b.output_dir_path :: r.1,
    (b.input_dir_path ++ [b.js_name], .jsPayload) ::
      (b.input_dir_path ++ [b.wasm_name], .wasmPayload) :: r.2.1⟩)

/-- The task built for a workspace and chunk list. -/
def builtTask (ws : List String) (bid : ℚ) (tt st : String)
    (cs : List String) : Task :=
  ((addChunks (TaskBuilder.new ws bid tt st) cs).build).1

/-- The file-system effects of building. -/
def builtFx (ws : List String) (bid : ℚ) (tt st : String)
    (cs : List String) : BuildFx :=
  ((addChunks (TaskBuilder.new ws bid tt st) cs).build).2

/-! ### The subtask key order

`add_subtask` inserts keys `subtask0`, `subtask1`, … into the
`BTreeMap`; the map iterates them in `strLt` order.  `sortedNames k`
is the resulting key sequence after `k` insertions. -/

/-- Keys after inserting `subtask<c>`, …, `subtask<c+t-1>` into a map
whose key list is `acc`. -/
def sortedNamesGo : Nat → Nat → List String → List String
  | _, 0, acc => acc
  | c, t + 1, acc => sortedNamesGo (c + 1) t (keyInsert (subtaskName c) acc)

/-- The key iteration order of the builder's `BTreeMap` after adding
`k` chunks. -/
def sortedNames (k : Nat) : List String := sortedNamesGo 0 k []

/-- The keys in the chunks' numeric index order. -/
def canonicalNames (k : Nat) : List String := (List.range k).map subtaskName

theorem addChunks_map_fst (cs : List String) : ∀ b : TaskBuilder,
    (addChunks b cs).subtasks.map Prod.fst =
      sortedNamesGo b.subtask_count cs.length (b.subtasks.map Prod.fst) := by
  induction cs with
  | nil => intro b; rfl
  | cons c cs ih =>
    intro b
    show (addChunks (b.add_subtask c) cs).subtasks.map Prod.fst = _
    rw [ih (b.add_subtask c)]
    simp [TaskBuilder.add_subtask, sortedNamesGo, btreeInsert_map_fst]

/-- Elements of `keyInsert k l` are `k` or elements of `l`. -/
theorem mem_of_mem_keyInsert {k x : String} : ∀ {l : List String},
    x ∈ keyInsert k l → x = k ∨ x ∈ l := by
  intro l
  induction l with
  | nil =>
    intro h
    simp only [keyInsert, List.mem_singleton] at h
    exact Or.inl h
  | cons k2 rest ih =>
    intro h
    simp only [keyInsert] at h
    split_ifs at h with h1 h2
    · rcases List.mem_cons.mp h with h3 | h3
      · exact Or.inl h3
      · exact Or.inr h3
    · rcases List.mem_cons.mp h with h3 | h3
      · exact Or.inl h3
      · exact Or.inr (List.mem_cons_of_mem _ h3)
    · rcases List.mem_cons.mp h with h3 | h3
      · exact Or.inr (by simp [h3])
      · rcases ih h3 with h4 | h4
        · exact Or.inl h4
        · exact Or.inr (List.mem_cons_of_mem _ h4)

/-- The function `keyInsert` inserts its key. -/
theorem mem_keyInsert_self (k : String) : ∀ l : List String,
    k ∈ keyInsert k l := by
  intro l
  induction l with
  | nil => simp [keyInsert]
  | cons k2 rest ih =>
    simp only [keyInsert]
    split_ifs with h1 h2
    · exact List.mem_cons_self _ _
    · exact List.mem_cons_self _ _
    · exact List.mem_cons_of_mem _ ih

/-- The function `keyInsert` keeps all existing keys. -/
theorem mem_keyInsert_of_mem {k x : String} : ∀ {l : List String},
    x ∈ l → x ∈ keyInsert k l := by
  intro l
  induction l with
  | nil => intro h; cases h
  | cons k2 rest ih =>
    intro h
    simp only [keyInsert]
    split_ifs with h1 h2
    · exact List.mem_cons_of_mem _ h
    · rcases List.mem_cons.mp h with h3 | h3
      · rw [h3, ← h2]
        exact List.mem_cons_self _ _
      · exact List.mem_cons_of_mem _ h3
    · rcases List.mem_cons.mp h with h3 | h3
      · rw [h3]
        exact List.mem_cons_self _ _
      · exact List.mem_cons_of_mem _ (ih h3)

/-- The function `keyInsert` keeps the key list strictly sorted. -/
theorem keyInsert_pairwise {k : String} : ∀ {l : List String},
    List.Pairwise (fun a b => strLt a b = true) l →
    List.Pairwise (fun a b => strLt a b = true) (keyInsert k l) := by
  intro l
  induction l with
  | nil => intro _; simp [keyInsert]
  | cons k2 rest ih =>
    intro hp
    rw [List.pairwise_cons] at hp
    obtain ⟨hk2, hrest⟩ := hp
    simp only [keyInsert]
    split_ifs with h1 h2
    · rw [List.pairwise_cons]
      refine ⟨?_, List.pairwise_cons.mpr ⟨hk2, hrest⟩⟩
      intro x hx
      rcases List.mem_cons.mp hx with h3 | h3
      · rw [h3]; exact h1
      · exact strLt_trans h1 (hk2 x h3)
    · rw [List.pairwise_cons]
      refine ⟨?_, hrest⟩
      intro x hx
      rw [h2]
      exact hk2 x hx
    · have hk2k : strLt k2 k = true := by
        cases h3 : strLt k2 k with
        | true => rfl
        | false =>
          exact absurd (strLt_conn (by simpa using h1) h3) h2
      rw [List.pairwise_cons]
      refine ⟨?_, ih hrest⟩
      intro x hx
      rcases mem_of_mem_keyInsert hx with h3 | h3
      · rw [h3]; exact hk2k
      · exact hk2 x h3

/-- The builder's key list stays strictly sorted. -/
theorem sortedNamesGo_pairwise : ∀ (t c : Nat) (acc : List String),
    List.Pairwise (fun a b => strLt a b = true) acc →
    List.Pairwise (fun a b => strLt a b = true) (sortedNamesGo c t acc) := by
  intro t
  induction t with
  | zero => intro c acc h; exact h
  | succ t ih => intro c acc h; exact ih (c + 1) _ (keyInsert_pairwise h)

theorem mem_sortedNamesGo_of_mem {x : String} : ∀ (t c : Nat)
    (acc : List String), x ∈ acc → x ∈ sortedNamesGo c t acc := by
  intro t
  induction t with
  | zero => intro c acc h; exact h
  | succ t ih => intro c acc h; exact ih (c + 1) _ (mem_keyInsert_of_mem h)

theorem subtaskName_mem_sortedNamesGo : ∀ (t c : Nat) (acc : List String)
    (i : Nat), i < t → subtaskName (c + i) ∈ sortedNamesGo c t acc := by
  intro t
  induction t with
  | zero => intro c acc i h; cases h
  | succ t ih =>
    intro c acc i h
    cases i with
    | zero =>
      exact mem_sortedNamesGo_of_mem t (c + 1) _ (mem_keyInsert_self _ _)
    | succ i =>
      have : c + (i + 1) = (c + 1) + i := by omega
      rw [this]
      exact ih (c + 1) _ i (by omega)

theorem sortedNames_pairwise (k : Nat) :
    List.Pairwise (fun a b => strLt a b = true) (sortedNames k) :=
  sortedNamesGo_pairwise k 0 [] List.Pairwise.nil

theorem subtaskName_mem_sortedNames {i k : Nat} (h : i < k) :
    subtaskName i ∈ sortedNames k := by
  simpa using subtaskName_mem_sortedNamesGo k 0 [] i h

/-- In a strictly sorted list a smaller element has a smaller index. -/
theorem indexOf_lt_of_pairwise {a b : String} : ∀ {l : List String},
    List.Pairwise (fun x y => strLt x y = true) l →
    a ∈ l → b ∈ l → strLt a b = true →
    l.indexOf a < l.indexOf b := by
  intro l
  induction l with
  | nil => intro _ ha; cases ha
  | cons h t ih =>
    intro hp ha hb hab
    rw [List.pairwise_cons] at hp
    obtain ⟨hh, ht⟩ := hp
    have hne : a ≠ b := by
      intro he
      rw [he, strLt_irrefl] at hab
      cases hab
    by_cases hha : h = a
    · have hhb : ¬ h = b := fun he => hne (hha.symm.trans he)
      simp only [List.indexOf_cons, cond_eq_if, beq_iff_eq, hha, hhb, hne,
        if_pos, if_neg, not_false_iff]
      omega
    · have hat : a ∈ t := by
        rcases List.mem_cons.mp ha with h3 | h3
        · exact absurd h3.symm hha
        · exact h3
      have hhb : ¬ h = b := by
        intro he
        have := hh a hat
        rw [← he] at hab
        rw [strLt_asymm hab] at this
        cases this
      have hbt : b ∈ t := by
        rcases List.mem_cons.mp hb with h3 | h3
        · exact absurd h3.symm hhb
        · exact h3
      simp only [List.indexOf_cons, hha, hhb, beq_iff_eq, if_neg, cond_eq_if,
        not_false_iff]
      have := ih ht hat hbt hab
      omega

/-- For at most ten chunks the single-digit suffixes make the
lexicographic key order coincide with the numeric index order. -/
theorem sortedNames_eq_canonical : ∀ {k : Nat}, k ≤ 10 →
    sortedNames k = canonicalNames k := by
  intro k h
  interval_cases k <;> decide

/-- The first eleven canonical names. -/
theorem canonicalNames_take {k : Nat} (h : 11 ≤ k) :
    (canonicalNames k).take 11 = canonicalNames 11 := by
  unfold canonicalNames
  rw [← List.map_take, List.take_range, inf_eq_left.mpr h]

/-- From eleven chunks on, `subtask10` sorts between `subtask1` and
`subtask2`, so the key iteration order is no longer the numeric one. -/
theorem sortedNames_ne_canonical {k : Nat} (h : 11 ≤ k) :
    sortedNames k ≠ canonicalNames k := by
  intro he
  have hp : List.Pairwise (fun a b => strLt a b = true) (canonicalNames k) :=
    he ▸ sortedNames_pairwise k
  have hp11 : List.Pairwise (fun a b => strLt a b = true) (canonicalNames 11) := by
    refine List.Pairwise.sublist ?_ hp
    rw [← canonicalNames_take h]
    exact List.take_sublist 11 (canonicalNames k)
  exact (by decide :
    ¬ List.Pairwise (fun a b => strLt a b = true) (canonicalNames 11)) hp11

/-! ### Flattening the build loop -/

theorem buildLoop_outs (i o : List String) : ∀ l : List (String × String),
    (buildLoop i o l).2.2.2 = l.map fun p => o ++ [p.1, "in.wav"] := by
  intro l
  induction l with
  | nil => rfl
  | cons p rest ih => simp [buildLoop, ih]

theorem buildLoop_entries (i o : List String) : ∀ l : List (String × String),
    (buildLoop i o l).2.2.1 =
      l.map fun p => (p.1, (⟨["in.txt", "in.wav"], ["in.wav"]⟩ : SubtaskEntry)) := by
  intro l
  induction l with
  | nil => rfl
  | cons p rest ih => simp [buildLoop, ih]

theorem buildLoop_files (i o : List String) : ∀ l : List (String × String),
    (buildLoop i o l).2.1 =
      l.map fun p => (i ++ [p.1, "in.txt"], FileData.textData p.2) := by
  intro l
  induction l with
  | nil => rfl
  | cons p rest ih => simp [buildLoop, ih]

theorem buildLoop_dirs (i o : List String) : ∀ l : List (String × String),
    (buildLoop i o l).1 =
      l.flatMap fun p => [i ++ [p.1], o ++ [p.1]] := by
  intro l
  induction l with
  | nil => rfl
  | cons p rest ih => simp [buildLoop, ih]

/-- The subtask key list of the fully fed builder. -/
theorem addChunks_keys (ws : List String) (bid : ℚ) (tt st : String)
    (cs : List String) :
    (addChunks (TaskBuilder.new ws bid tt st) cs).subtasks.map Prod.fst =
      sortedNames cs.length := by
  rw [addChunks_map_fst]
  rfl

/-- Adding subtasks never touches the directory fields. -/
theorem addChunks_input_dir (cs : List String) : ∀ b : TaskBuilder,
    (addChunks b cs).input_dir_path = b.input_dir_path := by
  induction cs with
  | nil => intro b; rfl
  | cons c cs ih => intro b; exact ih (b.add_subtask c)

theorem addChunks_output_dir (cs : List String) : ∀ b : TaskBuilder,
    (addChunks b cs).output_dir_path = b.output_dir_path := by
  induction cs with
  | nil => intro b; rfl
  | cons c cs ih => intro b; exact ih (b.add_subtask c)

/-- The expected output queue lists `out/<name>/in.wav` for the keys in
`BTreeMap` iteration order. -/
theorem builtTask_expected (ws : List String) (bid : ℚ) (tt st : String)
    (cs : List String) :
    (builtTask ws bid tt st cs).expected_output_paths =
      (sortedNames cs.length).map fun nm => ws ++ ["out", nm, "in.wav"] := by
  have h1 : (builtTask ws bid tt st cs).expected_output_paths =
      (buildLoop (addChunks (TaskBuilder.new ws bid tt st) cs).input_dir_path
        (addChunks (TaskBuilder.new ws bid tt st) cs).output_dir_path
        (addChunks (TaskBuilder.new ws bid tt st) cs).subtasks).2.2.2 := rfl
  rw [h1, buildLoop_outs, addChunks_output_dir,
    ← addChunks_keys ws bid tt st cs, List.map_map]
  apply List.map_congr_left
  intro p _
  show (TaskBuilder.new ws bid tt st).output_dir_path ++ [p.1, "in.wav"] =
    ws ++ ["out", p.1, "in.wav"]
  show (ws ++ ["out"]) ++ [p.1, "in.wav"] = ws ++ ["out", p.1, "in.wav"]
  simp

/-- Mapping an injective function preserves `indexOf`. -/
theorem indexOf_map_inj {f : String → List String}
    (hf : ∀ x y, f x = f y → x = y) (a : String) :
    ∀ l : List String, (l.map f).indexOf (f a) = l.indexOf a := by
  intro l
  induction l with
  | nil => rfl
  | cons h t ih =>
    by_cases hha : h = a
    · simp [List.indexOf_cons, hha]
    · have hf2 : ¬ f h = f a := fun he => hha (hf _ _ he)
      simp [List.indexOf_cons, cond_eq_if, beq_iff_eq, hha, hf2, ih]

theorem outPath_inj (ws : List String) {x y : String}
    (h : ws ++ ["out", x, "in.wav"] = ws ++ ["out", y, "in.wav"]) : x = y := by
  have h2 := List.append_cancel_left h
  simp only [List.cons.injEq] at h2
  exact h2.2.1

/-! ### Claim C9 -/

/-- **C9.** `build()` iterates the `BTreeMap` of subtasks in
lexicographic key order: the descriptor's subtask map and the expected
output queue follow `sortedNames`, that order is strictly
`strLt`-sorted, it equals the numeric chunk order precisely when at most
ten subtasks were added, and from eleven subtasks on `subtask10`'s
output path precedes `subtask2`'s. -/
theorem C9_btreemap_iteration_order (ws : List String) (bid : ℚ)
    (tt st : String) (cs : List String) :
    ((builtTask ws bid tt st cs).subtasks_map.map Prod.fst =
        sortedNames cs.length ∧
      (builtTask ws bid tt st cs).expected_output_paths =
        (sortedNames cs.length).map fun nm => ws ++ ["out", nm, "in.wav"]) ∧
    List.Pairwise (fun a b => strLt a b = true) (sortedNames cs.length) ∧
    (sortedNames cs.length = canonicalNames cs.length ↔ cs.length ≤ 10) ∧
    (11 ≤ cs.length →
      (builtTask ws bid tt st cs).expected_output_paths.indexOf
          (ws ++ ["out", subtaskName 10, "in.wav"]) <
        (builtTask ws bid tt st cs).expected_output_paths.indexOf
          (ws ++ ["out", subtaskName 2, "in.wav"])) := by
  refine ⟨⟨?_, builtTask_expected ws bid tt st cs⟩,
    sortedNames_pairwise _, ⟨fun he => ?_, sortedNames_eq_canonical⟩, fun h => ?_⟩
  · have h1 : (builtTask ws bid tt st cs).subtasks_map =
        (buildLoop (addChunks (TaskBuilder.new ws bid tt st) cs).input_dir_path
          (addChunks (TaskBuilder.new ws bid tt st) cs).output_dir_path
          (addChunks (TaskBuilder.new ws bid tt st) cs).subtasks).2.2.1 := rfl
    rw [h1, buildLoop_entries, List.map_map,
      ← addChunks_keys ws bid tt st cs]
    rfl
  · by_contra hgt
    exact sortedNames_ne_canonical (by omega) he
  · rw [builtTask_expected ws bid tt st cs,
      indexOf_map_inj (fun x y => outPath_inj ws) (subtaskName 10),
      indexOf_map_inj (fun x y => outPath_inj ws) (subtaskName 2)]
    exact indexOf_lt_of_pairwise (sortedNames_pairwise _)
      (subtaskName_mem_sortedNames (by omega))
      (subtaskName_mem_sortedNames (by omega))
      (by decide)

/-- **C9 witness.** Eleven one-word chunks: `subtask10`'s expected
output precedes `subtask2`'s in the queue. -/
theorem C9_witness :
    11 ≤ (List.replicate 11 "w").length ∧
    (builtTask ["ws"] 1 "00:10:00" "00:10:00"
        (List.replicate 11 "w")).expected_output_paths.indexOf
        (["ws"] ++ ["out", subtaskName 10, "in.wav"]) <
      (builtTask ["ws"] 1 "00:10:00" "00:10:00"
        (List.replicate 11 "w")).expected_output_paths.indexOf
        (["ws"] ++ ["out", subtaskName 2, "in.wav"]) :=
  ⟨by decide,
    (C9_btreemap_iteration_order ["ws"] 1 "00:10:00" "00:10:00"
      (List.replicate 11 "w")).2.2.2 (by decide)⟩

/-! ### Claim C8: workspace layout -/

theorem addChunks_js_name (cs : List String) : ∀ b : TaskBuilder,
    (addChunks b cs).js_name = b.js_name := by
  induction cs with
  | nil => intro b; rfl
  | cons c cs ih => intro b; exact ih (b.add_subtask c)

theorem addChunks_wasm_name (cs : List String) : ∀ b : TaskBuilder,
    (addChunks b cs).wasm_name = b.wasm_name := by
  induction cs with
  | nil => intro b; rfl
  | cons c cs ih => intro b; exact ih (b.add_subtask c)

/-- **C8 (amended).** The Manifest Builder lays the workspace out under
directories named `in` and `out` (not `input`/`output`): the shared
payload goes to `workspace/in/flite.js` and `workspace/in/flite.wasm`,
each chunk's text to `workspace/in/subtask<k>/in.txt`, the per-chunk
directories `workspace/in/subtask<k>` and `workspace/out/subtask<k>`
are created, and the expected output artifacts are
`workspace/out/subtask<k>/in.wav`. -/
theorem C8_workspace_layout (ws : List String) (bid : ℚ) (tt st : String)
    (cs : List String) :
    (builtFx ws bid tt st cs).filesWritten =
        (ws ++ ["in", "flite.js"], FileData.jsPayload) ::
          (ws ++ ["in", "flite.wasm"], FileData.wasmPayload) ::
          ((addChunks (TaskBuilder.new ws bid tt st) cs).subtasks.map fun p =>
            (ws ++ ["in", p.1, "in.txt"], FileData.textData p.2)) ∧
    (builtFx ws bid tt st cs).dirsCreated =
        (ws ++ ["in"]) :: (ws ++ ["out"]) ::
          ((addChunks (TaskBuilder.new ws bid tt st) cs).subtasks.flatMap fun p =>
            [ws ++ ["in", p.1], ws ++ ["out", p.1]]) ∧
    (builtTask ws bid tt st cs).expected_output_paths =
        ((addChunks (TaskBuilder.new ws bid tt st) cs).subtasks.map fun p =>
          ws ++ ["out", p.1, "in.wav"]) := by
  refine ⟨?_, ?_, ?_⟩
  · have h1 : (builtFx ws bid tt st cs).filesWritten =
        ((addChunks (TaskBuilder.new ws bid tt st) cs).input_dir_path ++
            [(addChunks (TaskBuilder.new ws bid tt st) cs).js_name],
          FileData.jsPayload) ::
          ((addChunks (TaskBuilder.new ws bid tt st) cs).input_dir_path ++
              [(addChunks (TaskBuilder.new ws bid tt st) cs).wasm_name],
            FileData.wasmPayload) ::
          (buildLoop (addChunks (TaskBuilder.new ws bid tt st) cs).input_dir_path
            (addChunks (TaskBuilder.new ws bid tt st) cs).output_dir_path
            (addChunks (TaskBuilder.new ws bid tt st) cs).subtasks).2.1 := rfl
    rw [h1, buildLoop_files, addChunks_input_dir, addChunks_js_name,
      addChunks_wasm_name]
    have hfun : (fun p : String × String =>
          ((TaskBuilder.new ws bid tt st).input_dir_path ++ [p.1, "in.txt"],
            FileData.textData p.2)) =
        fun p : String × String =>
          (ws ++ ["in", p.1, "in.txt"], FileData.textData p.2) := by
      funext p
      show ((ws ++ ["in"]) ++ [p.1, "in.txt"], FileData.textData p.2) = _
      simp
    rw [hfun]
    have hjs : (TaskBuilder.new ws bid tt st).input_dir_path ++
        [(TaskBuilder.new ws bid tt st).js_name] = ws ++ ["in", "flite.js"] := by
      show (ws ++ ["in"]) ++ ["flite.js"] = _
      simp
    have hwasm : (TaskBuilder.new ws bid tt st).input_dir_path ++
        [(TaskBuilder.new ws bid tt st).wasm_name] = ws ++ ["in", "flite.wasm"] := by
      show (ws ++ ["in"]) ++ ["flite.wasm"] = _
      simp
    rw [hjs, hwasm]
  · have h1 : (builtFx ws bid tt st cs).dirsCreated =
        (addChunks (TaskBuilder.new ws bid tt st) cs).input_dir_path ::
          (addChunks (TaskBuilder.new ws bid tt st) cs).output_dir_path ::
          (buildLoop (addChunks (TaskBuilder.new ws bid tt st) cs).input_dir_path
            (addChunks (TaskBuilder.new ws bid tt st) cs).output_dir_path
            (addChunks (TaskBuilder.new ws bid tt st) cs).subtasks).1 := rfl
    rw [h1, buildLoop_dirs, addChunks_input_dir, addChunks_output_dir]
    have hfun : (fun p : String × String =>
          [(TaskBuilder.new ws bid tt st).input_dir_path ++ [p.1],
            (TaskBuilder.new ws bid tt st).output_dir_path ++ [p.1]]) =
        fun p : String × String =>
          [ws ++ ["in", p.1], ws ++ ["out", p.1]] := by
      funext p
      show [(ws ++ ["in"]) ++ [p.1], (ws ++ ["out"]) ++ [p.1]] = _
      simp
    rw [hfun]
    rfl
  · have h1 : (builtTask ws bid tt st cs).expected_output_paths =
        (buildLoop (addChunks (TaskBuilder.new ws bid tt st) cs).input_dir_path
          (addChunks (TaskBuilder.new ws bid tt st) cs).output_dir_path
          (addChunks (TaskBuilder.new ws bid tt st) cs).subtasks).2.2.2 := rfl
    rw [h1, buildLoop_outs, addChunks_output_dir]
    have hfun : (fun p : String × String =>
          (TaskBuilder.new ws bid tt st).output_dir_path ++ [p.1, "in.wav"]) =
        fun p : String × String => ws ++ ["out", p.1, "in.wav"] := by
      funext p
      show (ws ++ ["out"]) ++ [p.1, "in.wav"] = _
      simp
    rw [hfun]

/-- **C8 counterexample.** Building one chunk in workspace `ws` writes
the payload under `ws/in` and queues outputs under `ws/out`; no created
directory is named `input` or `output`, refuting the claimed
`workspace/input`/`workspace/output` layout. -/
theorem C8_counterexample :
    (builtFx ["ws"] 1 "00:10:00" "00:10:00" ["hello"]).filesWritten =
      [(["ws", "in", "flite.js"], FileData.jsPayload),
       (["ws", "in", "flite.wasm"], FileData.wasmPayload),
       (["ws", "in", "subtask0", "in.txt"], FileData.textData "hello")] ∧
    (builtFx ["ws"] 1 "00:10:00" "00:10:00" ["hello"]).dirsCreated =
      [["ws", "in"], ["ws", "out"],
       ["ws", "in", "subtask0"], ["ws", "out", "subtask0"]] ∧
    (builtTask ["ws"] 1 "00:10:00" "00:10:00" ["hello"]).expected_output_paths =
      [["ws", "out", "subtask0", "in.wav"]] ∧
    (∀ q ∈ (builtFx ["ws"] 1 "00:10:00" "00:10:00" ["hello"]).dirsCreated,
      ¬ "input" ∈ q ∧ ¬ "output" ∈ q) := by
  decide

/-! ## The aggregator (`combine_wave`, `src/main.rs` lines 259-314)

`combine_wave` pops the first expected output path, opens it with
`hound::WavReader`, records its spec, creates the destination
`hound::WavWriter` with that spec, and then copies the sample stream of
the first file and of every remaining file, in queue order, into the
destination via `into_samples::<i16>()` / `write_sample`.  It never
compares a later file's spec against the recorded one.

The hound model: a WAV artifact is its spec plus its decoded sample
stream.  `into_samples::<i16>()` yields one `Result` per sample; every
sample decodes when the stored format is integer with at most 16 bits,
and otherwise the very first sample yields an error (`Error::TooWide` /
`InvalidSampleFormat`), so a file with no samples never errors.  Error
message strings and the open-failure path (missing or malformed file)
are abstracted. -/

/-- hound's `WavSpec`: channel count, sample rate, bit depth and sample
format (`intFormat = true` for `SampleFormat::Int`). -/
structure WavSpec where
  channels : Nat
  sample_rate : Nat
  bits_per_sample : Nat
  intFormat : Bool
deriving DecidableEq

/-- A WAV result artifact: its spec and decoded sample stream. -/
structure WavFile where
  spec : WavSpec
  samples : List Int
deriving DecidableEq

/-- Whether hound decodes the file's samples as `i16`. -/
def i16Readable (s : WavSpec) : Bool :=
  s.intFormat && s.bits_per_sample ≤ 16

/-- Reading a whole sample stream as `i16` (`into_samples::<i16>()`
driven to the end, each sample written through on success). -/
def readSamplesI16 (f : WavFile) : Except String (List Int) :=
  if f.samples.isEmpty then .ok []
  else if i16Readable f.spec then .ok f.samples
  else .error "reading audio sample from file"

/-- The copy loop of `combine_wave`: append each file's samples to the
destination; a sample read error aborts, keeping what was already
written. -/
def combineLoop (acc : List Int) : List WavFile → List Int × Option String
  | [] => (acc, none)
  | f :: fs =>
    match readSamplesI16 f with
    | .ok s => combineLoop (acc ++ s) fs
    | .error e => (acc, some e)

/-- The outcome of `combine_wave`: the samples written to the
destination, the spec the destination was created with (`none` when no
result artifact was available), and the error, if any. -/
structure CombineOut where
  written : List Int
  destSpec : Option WavSpec
  err : Option String
deriving DecidableEq

/-- The aggregator `combine_wave` (`src/main.rs` lines 259-314) on the result
artifacts fetched from the expected output paths, front of the queue
first. -/
def combine_wave (files : List WavFile) : CombineOut :=
  match files with
  | [] => ⟨[], none, some "combining results: no results received from Golem"⟩
  | first :: rest =>
    let r := combineLoop [] (first :: rest)
    ⟨r.1, some first.spec, r.2⟩

/-- When every file decodes as `i16` the copy loop concatenates all
sample streams in list order and reports no error. -/
theorem combineLoop_ok : ∀ files : List WavFile, ∀ acc : List Int,
    (∀ f ∈ files, i16Readable f.spec = true) →
    combineLoop acc files = (acc ++ (files.map fun f => f.samples).flatten, none) := by
  intro files
  induction files with
  | nil => intro acc _; simp [combineLoop]
  | cons f fs ih =>
    intro acc h
    have hf : i16Readable f.spec = true := h f (List.mem_cons_self f fs)
    have hread : readSamplesI16 f = .ok f.samples := by
      unfold readSamplesI16
      by_cases he : f.samples.isEmpty
      · rw [if_pos he]
        rw [List.isEmpty_iff] at he
        rw [he]
      · rw [if_neg he, if_pos hf]
    show (match readSamplesI16 f with
      | .ok s => combineLoop (acc ++ s) fs
      | .error e => (acc, some e)) = _
    rw [hread]
    show combineLoop (acc ++ f.samples) fs = _
    rw [ih _ fun g hg => h g (List.mem_cons_of_mem f hg)]
    simp

/-! ### Claims C3 and C4 -/

/-- **C3 (amended).** Given result artifacts that all share one
(16-bit integer) audio spec, `combine_wave` applied to the task's
expected output paths succeeds and produces the concatenation of the
artifacts' sample streams in `expected_output_paths` (queue) order -
which is the `BTreeMap`'s lexicographic key order, and coincides with
the chunks' numeric index order exactly when there are at most ten
chunks (not for every `k`: see the counterexample with eleven). -/
theorem C3_combine_concatenates_queue_order (ws : List String) (bid : ℚ)
    (tt st : String) (cs : List String)
    (fs : List String → WavFile) (spec0 : WavSpec)
    (h1 : 1 ≤ cs.length)
    (h2 : ∀ p, (fs p).spec = spec0)
    (h3 : i16Readable spec0 = true) :
    combine_wave ((builtTask ws bid tt st cs).expected_output_paths.map fs) =
      ⟨(((builtTask ws bid tt st cs).expected_output_paths.map fs).map
          fun f => f.samples).flatten, some spec0, none⟩ ∧
    (cs.length ≤ 10 →
      (builtTask ws bid tt st cs).expected_output_paths =
        (List.range cs.length).map fun i => ws ++ ["out", subtaskName i, "in.wav"]) := by
  constructor
  · obtain ⟨a, l, hq⟩ : ∃ a l, (builtTask ws bid tt st cs).expected_output_paths =
        a :: l := by
      have hmem := subtaskName_mem_sortedNames (show 0 < cs.length from h1)
      rw [builtTask_expected]
      cases hsn : sortedNames cs.length with
      | nil => rw [hsn] at hmem; cases hmem
      | cons a2 l2 => exact ⟨_, _, rfl⟩
    rw [hq]
    have hall : ∀ f ∈ (a :: l).map fs, i16Readable f.spec = true := by
      intro f hf
      obtain ⟨p, _, hp⟩ := List.mem_map.mp hf
      rw [← hp, h2 p]
      exact h3
    show (⟨(combineLoop [] (fs a :: l.map fs)).1, some (fs a).spec,
      (combineLoop [] (fs a :: l.map fs)).2⟩ : CombineOut) = _
    rw [combineLoop_ok _ [] (by simpa using hall)]
    simp [h2 a]
  · intro h10
    rw [builtTask_expected, sortedNames_eq_canonical h10, canonicalNames,
      List.map_map]
    rfl

/-- **C3 witness.** One chunk, a constant artifact assignment. -/
theorem C3_witness :
    1 ≤ (["w"] : List String).length ∧
    (∀ p : List String,
      ((fun _ => (⟨⟨1, 16000, 16, true⟩, [5]⟩ : WavFile)) p).spec =
        ⟨1, 16000, 16, true⟩) ∧
    i16Readable ⟨1, 16000, 16, true⟩ = true ∧
    (combine_wave ((builtTask ["ws"] 1 "00:10:00" "00:10:00" ["w"]).expected_output_paths.map
        fun _ => (⟨⟨1, 16000, 16, true⟩, [5]⟩ : WavFile)) =
      ⟨(((builtTask ["ws"] 1 "00:10:00" "00:10:00" ["w"]).expected_output_paths.map
          fun _ => (⟨⟨1, 16000, 16, true⟩, [5]⟩ : WavFile)).map
            fun f => f.samples).flatten, some ⟨1, 16000, 16, true⟩, none⟩ ∧
      ((["w"] : List String).length ≤ 10 →
        (builtTask ["ws"] 1 "00:10:00" "00:10:00" ["w"]).expected_output_paths =
          (List.range (["w"] : List String).length).map
            fun i => ["ws"] ++ ["out", subtaskName i, "in.wav"])) :=
  ⟨by decide, fun _ => rfl, by decide,
    C3_combine_concatenates_queue_order ["ws"] 1 "00:10:00" "00:10:00" ["w"]
      (fun _ => ⟨⟨1, 16000, 16, true⟩, [5]⟩) ⟨1, 16000, 16, true⟩
      (by decide) (fun _ => rfl) (by decide)⟩

/-- The synthetic result artifact for the C3 counterexample: the
artifact at chunk `i`'s expected output path holds the single sample
`i` (and all artifacts share one 16-bit spec). -/
def c3Artifact (p : List String) : WavFile :=
  ⟨⟨1, 16000, 16, true⟩,
    [(((List.range 11).map fun i => ["ws", "out", subtaskName i, "in.wav"]).indexOf p : Int)]⟩

/-- **C3 counterexample.** With `k = 11` chunks whose artifacts hold
the sample sequences `[0], [1], …, [10]`, combining over the task's
expected output paths yields `[0, 1, 10, 2, …, 9]` - the lexicographic
queue order - which differs from the numeric-order concatenation
`S1 ++ … ++ S11 = [0, 1, 2, …, 10]`. -/
theorem C3_counterexample :
    (combine_wave ((builtTask ["ws"] 1 "00:10:00" "00:10:00"
        (List.replicate 11 "w")).expected_output_paths.map c3Artifact)) =
      ⟨[0, 1, 10, 2, 3, 4, 5, 6, 7, 8, 9], some ⟨1, 16000, 16, true⟩, none⟩ ∧
    ((List.range 11).map fun i =>
        (c3Artifact ["ws", "out", subtaskName i, "in.wav"]).samples).flatten =
      [0, 1, 2, 3, 4, 5, 6, 7, 8, 9, 10] ∧
    ([0, 1, 10, 2, 3, 4, 5, 6, 7, 8, 9] : List Int) ≠
      [0, 1, 2, 3, 4, 5, 6, 7, 8, 9, 10] := by
  decide

/-- **C4 (amended).** `combine_wave` performs no audio-spec
verification at all: as long as every artifact decodes as 16-bit
integer samples, artifacts whose specs differ from the first artifact's
spec are concatenated without any error - there is no
`FormatMismatchError` in the program - and their samples are all
written to the destination (which carries the first artifact's spec). -/
theorem C4_no_format_check (first : WavFile) (rest : List WavFile)
    (h : ∀ f ∈ first :: rest, i16Readable f.spec = true) :
    combine_wave (first :: rest) =
      ⟨((first :: rest).map fun f => f.samples).flatten, some first.spec, none⟩ := by
  show (⟨(combineLoop [] (first :: rest)).1, some first.spec,
    (combineLoop [] (first :: rest)).2⟩ : CombineOut) = _
  rw [combineLoop_ok _ [] h]
  simp

/-- **C4 witness.** Two 16-bit artifacts with different sample rates:
the hypothesis holds and combining succeeds, appending both streams. -/
theorem C4_witness :
    (∀ f ∈ [(⟨⟨1, 44100, 16, true⟩, [1, 2]⟩ : WavFile),
        ⟨⟨1, 22050, 16, true⟩, [3]⟩], i16Readable f.spec = true) ∧
    combine_wave [⟨⟨1, 44100, 16, true⟩, [1, 2]⟩, ⟨⟨1, 22050, 16, true⟩, [3]⟩] =
      ⟨[1, 2, 3], some ⟨1, 44100, 16, true⟩, none⟩ :=
  ⟨by decide,
    C4_no_format_check ⟨⟨1, 44100, 16, true⟩, [1, 2]⟩
      [⟨⟨1, 22050, 16, true⟩, [3]⟩] (by decide)⟩

/-- **C4 counterexample.** Chunk 2's spec differs from chunk 1's
(22050 Hz vs 44100 Hz), yet `combine_wave` reports no error and writes
chunk 2's samples to the destination - there is no
`FormatMismatchError` and writing does not stop after chunk 1. -/
theorem C4_counterexample :
    combine_wave [⟨⟨1, 44100, 16, true⟩, [1, 2]⟩, ⟨⟨1, 22050, 16, true⟩, [3]⟩] =
      ⟨[1, 2, 3], some ⟨1, 44100, 16, true⟩, none⟩ ∧
    (⟨1, 44100, 16, true⟩ : WavSpec) ≠ ⟨1, 22050, 16, true⟩ := by
  decide

/-! ## The lifecycle loop (`App::send_to_golem`, `src/app.rs` lines 175-219)

After submission the controller loops: read the cancellation flag; if
set, call `delete_task` and return `Ok(CompFragment::CtrlC)` (or `Err`
if the cancel RPC fails); otherwise poll with `get_task`, update the
tracked progress, dispatch on the status, sleep one second and repeat.

The back end is modelled as a list of per-iteration observations
(`LoopIter`): the flag value read at the boundary, whether a
`delete_task` would succeed, and the poll response.  The loop returns
the trace of backend calls, the emitted progress deltas, and the
outcome; an exhausted observation list yields `.ok none` (the real loop
would keep polling).  `f64` progress is modelled as `ℚ`.

`run_on_golem` in `src/main.rs` (lines 141-257) contains the same loop
without the cancellation check and with the shorter abort message
`"task aborted"`; every statement below about non-cancelling
iterations applies to it verbatim. -/

/-- The status enum `golem_rpc_api::comp::TaskStatus` as dispatched by the loop's
`match`: the four named arms plus `Other` for the catch-all `_ => {}`
(`Requested`, `Computing`, …). -/
inductive TaskStatus where
  | Restarted
  | Aborted
  | Timeout
  | Finished
  | Other
deriving DecidableEq

/-- The poll response: status plus optional progress fraction. -/
structure TaskInfo where
  status : TaskStatus
  progress : Option ℚ
deriving DecidableEq

/-- One loop iteration's environment. -/
structure LoopIter where
  abortFlag : Bool
  deleteOk : Bool
  info : TaskInfo
deriving DecidableEq

/-- RPC calls the loop can issue. -/
inductive BackendCall where
  | getTask
  | deleteTask
deriving DecidableEq

/-- The type `CompFragment` (`src/app.rs` lines 24-28): a stage's outcome is
either a successful value or the marker that the user cancelled. -/
inductive CompFragment (T : Type) where
  | Success : T → CompFragment T
  | CtrlC : CompFragment T
deriving DecidableEq

/-- The progress block (`src/app.rs` lines 194-198), with
`progress = reported * 100`: whenever the new value differs from the
tracked one - in either direction - the tracked value is replaced and a
delta `(progress - old_progress) / 100` is emitted towards the progress
bar.  (The bar itself increments by `round(delta * num_tasks) as u64`,
which clamps negative deltas to zero; the delta is what the code
computes and hands to the sink.) -/
def progressStep (old progress : ℚ) : ℚ × Option ℚ :=
  (if progress ≠ old then progress else old,
   if progress ≠ old then some ((progress - old) / 100) else none)

/-- Extracting and processing the reported progress
(`src/app.rs` lines 189-198): a missing progress field is the error
`"reading task's progress"`. -/
def pollProgress (tracked : ℚ) (info : TaskInfo) :
    Except String (ℚ × Option ℚ) :=
  match info.progress with
  | none => .error "reading task's progress"
  | some p => .ok (progressStep tracked (p * 100))

/-- What the loop does after the progress block. -/
inductive IterNext where
  | cont : ℚ → IterNext
  | finish
deriving DecidableEq

/-- The status `match` (`src/app.rs` lines 200-216): `Restarted`
continues with tracked progress reset to `0`; `Aborted` and `Timeout`
return terminal errors; `Finished` breaks out of the loop; anything
else keeps polling with the updated tracked value. -/
def statusDispatch (st : TaskStatus) (tracked : ℚ) :
    Except String IterNext :=
  match st with
  | .Restarted => .ok (.cont 0)
  | .Aborted => .error "waiting for task to complete: task aborted by someone else"
  | .Timeout => .error "waiting for task to complete: task timed out"
  | .Finished => .ok .finish
  | .Other => .ok (.cont tracked)

/-- The poll loop.  Returns the backend calls issued, the emitted
progress deltas, and the outcome: `Ok(Some(Success task))` after
`Finished`, `Ok(Some(CtrlC))` after a successful cancellation,
`Ok(None)` when the observation list runs out mid-loop, `Err`
otherwise. -/
def pollLoop (task : Task) (tracked : ℚ) :
    List LoopIter →
      List BackendCall × List ℚ × Except String (Option (CompFragment Task))
  | [] => ([], [], .ok none)
  | it :: rest =>
    if it.abortFlag then
      if it.deleteOk then ([.deleteTask], [], .ok (some .CtrlC))
      else ([.deleteTask], [], .error "cancelling task")
    else
      match pollProgress tracked it.info with
      | .error e => ([.getTask], [], .error e)
      | .ok (t2, d) =>
        match statusDispatch it.info.status t2 with
        | .error e => ([.getTask], d.toList, .error e)
        | .ok .finish => ([.getTask], d.toList, .ok (some (.Success task)))
        | .ok (.cont t3) =>
          let r := pollLoop task t3 rest
          (.getTask :: r.1, d.toList ++ r.2.1, r.2.2)

/-! ### Claims C5, C6 and C7 -/

/-- **C5 (amended).** The tracked progress value equals the most
recently reported progress value (scaled by 100) - it is overwritten on
*any* change, decreases included, not only on strict increases - and a
delta `(new - tracked) / 100` is emitted exactly when the new scaled
value *differs* from the tracked one; a reported value below the
tracked one therefore emits a negative delta with no reset event (the
terminal progress bar merely clamps the negative increment to zero).
`Restarted` is the only status that resets the tracked value to 0;
every other non-terminal status continues with the updated value. -/
theorem C5_progress_tracks_last_value (tracked p : ℚ) :
    (pollProgress tracked ⟨.Other, some p⟩ =
      .ok (p * 100,
        if p * 100 ≠ tracked then some ((p * 100 - tracked) / 100) else none)) ∧
    statusDispatch .Other tracked = .ok (.cont tracked) ∧
    statusDispatch .Restarted tracked = .ok (.cont 0) := by
  refine ⟨?_, rfl, rfl⟩
  unfold pollProgress progressStep
  by_cases h : p * 100 = tracked
  · simp [h]
  · simp [h]

/-- **C5 counterexample.** Polls reporting `0.5` then `0.3` (status
`Other` both times, no `Restarted` anywhere): the second iteration
emits the negative delta `-1/5` and the tracked value drops to `30`,
which is not the highest value observed (`50`).  This refutes
"tracked = highest since reset" and "delta emitted exactly when
strictly greater" and "deltas never negative except via reset". -/
theorem C5_counterexample :
    pollProgress 0 ⟨.Other, some (1 / 2)⟩ = .ok (50, some (1 / 2)) ∧
    pollProgress 50 ⟨.Other, some (3 / 10)⟩ = .ok (30, some (-(1 / 5))) ∧
    (-(1 / 5) : ℚ) < 0 ∧ (30 : ℚ) < 50 := by
  refine ⟨?_, ?_, by norm_num, by norm_num⟩ <;>
    · unfold pollProgress progressStep
      norm_num

/-- **C6.** The status dispatch of the poll loop: `Finished` ends the
loop successfully, returning the completed task (whose
`expected_output_paths` are the artifact references) and ignoring any
further observations (no retry); `Aborted` and `Timeout` end the loop
with terminal errors (again ignoring the rest, no re-submission);
`Restarted` is not an error - the loop continues on the remaining
observations with the tracked progress reset to `0`. -/
theorem C6_status_dispatch (task : Task) (tracked p : ℚ) (dok : Bool)
    (rest : List LoopIter) :
    (pollLoop task tracked (⟨false, dok, ⟨.Finished, some p⟩⟩ :: rest) =
      ([.getTask],
        (if p * 100 ≠ tracked then some ((p * 100 - tracked) / 100) else none).toList,
        .ok (some (.Success task)))) ∧
    (pollLoop task tracked (⟨false, dok, ⟨.Aborted, some p⟩⟩ :: rest) =
      ([.getTask],
        (if p * 100 ≠ tracked then some ((p * 100 - tracked) / 100) else none).toList,
        .error "waiting for task to complete: task aborted by someone else")) ∧
    (pollLoop task tracked (⟨false, dok, ⟨.Timeout, some p⟩⟩ :: rest) =
      ([.getTask],
        (if p * 100 ≠ tracked then some ((p * 100 - tracked) / 100) else none).toList,
        .error "waiting for task to complete: task timed out")) ∧
    (pollLoop task tracked (⟨false, dok, ⟨.Restarted, some p⟩⟩ :: rest) =
      (.getTask :: (pollLoop task 0 rest).1,
        (if p * 100 ≠ tracked then some ((p * 100 - tracked) / 100) else none).toList ++
          (pollLoop task 0 rest).2.1,
        (pollLoop task 0 rest).2.2)) :=
  ⟨rfl, rfl, rfl, rfl⟩

/-- **C7.** Whenever the cancellation flag reads `true` at a
loop-iteration boundary (and the backend accepts the cancel), the loop
issues exactly one `delete_task` call - and in particular no further
`get_task` poll - and returns `Ok(Some(CtrlC))`: a cancellation outcome
that is an `Ok` (hence distinct from every error outcome) and distinct
from every `Success` value. -/
theorem C7_cancel_before_poll (task : Task) (tracked : ℚ) (it : LoopIter)
    (rest : List LoopIter) (h1 : it.abortFlag = true)
    (h2 : it.deleteOk = true) :
    pollLoop task tracked (it :: rest) =
      ([.deleteTask], [], .ok (some .CtrlC)) ∧
    (∀ t : Task, (CompFragment.CtrlC : CompFragment Task) ≠ .Success t) := by
  constructor
  · unfold pollLoop
    rw [h1, h2]
    simp
  · intro t h
    cases h

/-- **C7 witness.** A flag set at the very first boundary: one cancel
call, zero polls, outcome `CtrlC`. -/
theorem C7_witness :
    (⟨true, true, ⟨.Other, some 0⟩⟩ : LoopIter).abortFlag = true ∧
    (⟨true, true, ⟨.Other, some 0⟩⟩ : LoopIter).deleteOk = true ∧
    (pollLoop (builtTask ["ws"] 1 "00:10:00" "00:10:00" ["w"]) 0
        [⟨true, true, ⟨.Other, some 0⟩⟩] =
        ([.deleteTask], [], .ok (some .CtrlC)) ∧
      (∀ t : Task, (CompFragment.CtrlC : CompFragment Task) ≠ .Success t)) :=
  ⟨rfl, rfl,
    C7_cancel_before_poll (builtTask ["ws"] 1 "00:10:00" "00:10:00" ["w"]) 0
      ⟨true, true, ⟨.Other, some 0⟩⟩ [] rfl rfl⟩

/-! ## Timeout parsing (`Timeout::from_str`, `src/timeout.rs` lines 10-26)

`Timeout::from_str` delegates to chrono's
`NaiveTime::parse_from_str(value, "%H:%M:%S")` and then rejects exactly
`00:00:00`.  chrono 0.4's parser processes the format items
`[Numeric(Hour), Literal(":"), Numeric(Minute), Literal(":"),
Numeric(Second)]` as follows, which is what is embedded here:

* before each numeric item it skips leading whitespace
  (`s.trim_left()`);
* a numeric item reads one or two decimal digits (padding is flexible
  when parsing);
* a literal must match exactly;
* leftover input after all items is the error `TOO_LONG`
  ("trailing input"); running out of input inside an item is
  `TOO_SHORT` ("premature end of input"); a non-digit where a digit is
  required, or a mismatched literal, is `INVALID` ("input contains
  invalid characters");
* `Parsed::to_naive_time` then requires hour ≤ 23, minute ≤ 59 and
  second ≤ 60; the value 60 is accepted and denotes a parsed leap
  second (chrono stores it as second 59 plus 10⁹ extra nanoseconds);
  anything else is `OUT_OF_RANGE` ("input is out of range").

The unit tests in `src/timeout.rs` pin the cases relied upon: `"10"`,
`"10:00"` and `""` fail with "premature end of input", `"24:00:00"`
with "input is out of range", `"00:00:00"` with the custom message,
and `"00:00:10"`, `"00:10:00"`, `"10:00:00"`, `"23:59:59"` succeed.
The embedding reproduces all of them (`timeout_unit_tests`). -/

/-- The result of parsing `%H:%M:%S`: hour, minute and second fields,
with `second = 60` denoting chrono's parsed leap second. -/
structure NaiveTime where
  hour : Nat
  minute : Nat
  second : Nat
deriving DecidableEq

/-- chrono parse error kinds, with their `Display` texts. -/
inductive ParseErr where
  | tooShort
  | tooLong
  | invalid
  | outOfRange
deriving DecidableEq

def ParseErr.describe : ParseErr → String
  | .tooShort => "premature end of input"
  | .tooLong => "trailing input"
  | .invalid => "input contains invalid characters"
  | .outOfRange => "input is out of range"

/-- chrono's numeric scan for a width-2 item: skip leading whitespace,
then read one or two decimal digits. -/
def scanNum2 (s : List Char) : Except ParseErr (Nat × List Char) :=
  match s.dropWhile (fun c => rustIsWhitespace c) with
  | [] => .error .tooShort
  | c :: rest =>
    if c.isDigit then
      match rest with
      | c2 :: rest2 =>
        if c2.isDigit then
          .ok ((c.toNat - '0'.toNat) * 10 + (c2.toNat - '0'.toNat), rest2)
        else .ok (c.toNat - '0'.toNat, rest)
      | [] => .ok (c.toNat - '0'.toNat, [])
    else .error .invalid

/-- Matching one literal character of the format string. -/
def scanLit (lit : Char) (s : List Char) : Except ParseErr (List Char) :=
  match s with
  | [] => .error .tooShort
  | c :: rest => if c = lit then .ok rest else .error .invalid

/-- chrono's `NaiveTime::parse_from_str(value, "%H:%M:%S")`. -/
def parseHMS (value : String) : Except ParseErr NaiveTime := do
  let (h, s1) ← scanNum2 value.data
  let s2 ← scanLit ':' s1
  let (m, s3) ← scanNum2 s2
  let s4 ← scanLit ':' s3
  let (sec, s5) ← scanNum2 s4
  if ¬ s5.isEmpty then .error .tooLong
  else if h ≤ 23 ∧ m ≤ 59 ∧ sec ≤ 60 then .ok ⟨h, m, sec⟩
  else .error .outOfRange

/-- The `Timeout` wrapper (`src/timeout.rs` lines 5-8). -/
structure Timeout where
  timeout : NaiveTime
deriving DecidableEq

/-- The parser `Timeout::from_str` (`src/timeout.rs` lines 13-25): parse with
`%H:%M:%S`, wrapping parse errors into the message string, then reject
`00:00:00`. -/
def Timeout.from_str (value : String) : Except String Timeout :=
  match parseHMS value with
  | .error err =>
    .error ("Failed parsing Timeout from '" ++ value ++ "' with error: " ++
      err.describe)
  | .ok t =>
    if t = ⟨0, 0, 0⟩ then .error "Timeout of '00:00:00' is not allowed"
    else .ok ⟨t⟩

/-- The embedding reproduces every unit test of `src/timeout.rs`. -/
theorem timeout_unit_tests :
    Timeout.from_str "00:00:10" = .ok ⟨⟨0, 0, 10⟩⟩ ∧
    Timeout.from_str "00:10:00" = .ok ⟨⟨0, 10, 0⟩⟩ ∧
    Timeout.from_str "10:00:00" = .ok ⟨⟨10, 0, 0⟩⟩ ∧
    Timeout.from_str "23:59:59" = .ok ⟨⟨23, 59, 59⟩⟩ ∧
    Timeout.from_str "10" =
      .error "Failed parsing Timeout from '10' with error: premature end of input" ∧
    Timeout.from_str "10:00" =
      .error "Failed parsing Timeout from '10:00' with error: premature end of input" ∧
    Timeout.from_str "" =
      .error "Failed parsing Timeout from '' with error: premature end of input" ∧
    Timeout.from_str "24:00:00" =
      .error "Failed parsing Timeout from '24:00:00' with error: input is out of range" ∧
    Timeout.from_str "00:00:00" =
      .error "Timeout of '00:00:00' is not allowed" := by
  decide

/-- Successful `%H:%M:%S` parses stay within chrono's field ranges,
leap second included. -/
theorem parseHMS_bounds {s : String} {t : NaiveTime}
    (h : parseHMS s = .ok t) :
    t.hour ≤ 23 ∧ t.minute ≤ 59 ∧ t.second ≤ 60 := by
  unfold parseHMS at h
  simp only [bind, Except.bind] at h
  repeat' split at h
  any_goals cases h
  rename_i hbounds
  exact hbounds

/-! ### Claim C10 -/

/-- **C10 (amended).** `Timeout::from_str` succeeds exactly when
chrono's `%H:%M:%S` parse succeeds with a value other than `00:00:00` -
but chrono's parse is laxer than strictly formatted times of day: it
accepts unpadded one-digit fields and whitespace before numeric fields,
and it accepts second `60` (a leap second).  Every accepted timeout
satisfies hour ≤ 23, minute ≤ 59, second ≤ 60 and is at least one
second, i.e. it lies between `00:00:01` and `23:59:60` (not `23:59:59`)
inclusive; timeouts of more than 24 hours remain inexpressible. -/
theorem C10_timeout_accepted_range (s : String) (t : Timeout)
    (h : Timeout.from_str s = .ok t) :
    parseHMS s = .ok t.timeout ∧
    t.timeout ≠ ⟨0, 0, 0⟩ ∧
    t.timeout.hour ≤ 23 ∧ t.timeout.minute ≤ 59 ∧ t.timeout.second ≤ 60 ∧
    1 ≤ t.timeout.hour * 3600 + t.timeout.minute * 60 + t.timeout.second ∧
    t.timeout.hour * 3600 + t.timeout.minute * 60 + t.timeout.second ≤ 86400 := by
  unfold Timeout.from_str at h
  split at h
  · cases h
  · rename_i t0 heq
    split at h
    · cases h
    · rename_i hz
      cases h
      dsimp only
      obtain ⟨h1, h2, h3⟩ := parseHMS_bounds heq
      refine ⟨heq, hz, h1, h2, h3, ?_, by omega⟩
      by_contra hc
      push_neg at hc
      refine hz ?_
      have e1 : t0.hour = 0 := by omega
      have e2 : t0.minute = 0 := by omega
      have e3 : t0.second = 0 := by omega
      calc t0 = ⟨t0.hour, t0.minute, t0.second⟩ := rfl
        _ = ⟨0, 0, 0⟩ := by rw [e1, e2, e3]

/-- **C10 witness.** The largest ordinary accepted timeout,
`23:59:59`. -/
theorem C10_witness :
    Timeout.from_str "23:59:59" = .ok ⟨⟨23, 59, 59⟩⟩ ∧
    (parseHMS "23:59:59" = .ok (⟨⟨23, 59, 59⟩⟩ : Timeout).timeout ∧
      (⟨⟨23, 59, 59⟩⟩ : Timeout).timeout ≠ ⟨0, 0, 0⟩ ∧
      (⟨⟨23, 59, 59⟩⟩ : Timeout).timeout.hour ≤ 23 ∧
      (⟨⟨23, 59, 59⟩⟩ : Timeout).timeout.minute ≤ 59 ∧
      (⟨⟨23, 59, 59⟩⟩ : Timeout).timeout.second ≤ 60 ∧
      1 ≤ (⟨⟨23, 59, 59⟩⟩ : Timeout).timeout.hour * 3600 +
        (⟨⟨23, 59, 59⟩⟩ : Timeout).timeout.minute * 60 +
        (⟨⟨23, 59, 59⟩⟩ : Timeout).timeout.second ∧
      (⟨⟨23, 59, 59⟩⟩ : Timeout).timeout.hour * 3600 +
        (⟨⟨23, 59, 59⟩⟩ : Timeout).timeout.minute * 60 +
        (⟨⟨23, 59, 59⟩⟩ : Timeout).timeout.second ≤ 86400) :=
  ⟨by decide,
    C10_timeout_accepted_range "23:59:59" ⟨⟨23, 59, 59⟩⟩ (by decide)⟩

/-- **C10 counterexample.** chrono's `%S` accepts the leap second `60`,
so `Timeout::from_str("23:59:60")` succeeds with a time *after*
`23:59:59` - refuting "every accepted timeout lies between 00:00:01 and
23:59:59 inclusive"; chrono also accepts unpadded fields such as
`"1:2:3"`, so acceptance is not literal `%H:%M:%S`-formatted times of
day either. -/
theorem C10_counterexample :
    Timeout.from_str "23:59:60" = .ok ⟨⟨23, 59, 60⟩⟩ ∧
    Timeout.from_str "1:2:3" = .ok ⟨⟨1, 2, 3⟩⟩ ∧
    (23 * 3600 + 59 * 60 + 60 : Nat) > 23 * 3600 + 59 * 60 + 59 := by
  decide

end GFlite
